import Mathlib

/-!
A shallow embedding of the reactive-graphql execution engine.

The embedding follows the sources of the repository:

* `src/execution/execute.ts` — the reference-aligned reactive engine
  (`executeFields`, `executeFieldsSerially`, `resolveField`,
  `completeValue`, `completeListValue`, `completeLeafValue`,
  `completeValueCatchingError`, `handleFieldError`, `buildResponse`);
* `src/rxutils/combinePropsLatest.ts` and `src/rxutils/mapPromiseToObservale.ts`
  (`combinePropsLatest`, `mapToFirstValue`);
* `src/reactive-graphql.ts` — the ad-hoc engine
  (`fieldNotFoundMessageForType`, `throwObservable`, the message built in
  `resolve`);
* `src/jstutils/isInvalid.ts`, `src/jstutils/isNullish.ts`.

JavaScript dynamic values are modelled by the inductive type `JSValue`.
RxJS observables are modelled as cold, finite, synchronously-subscribed
streams (`ObsStream`): a list of emitted values, an optional terminal error
notification, and the list of errors the stream pushes into the execution
context while it runs.  The semantics of the RxJS operators `of`,
`combineLatest` and `switchMap` under synchronous subscription of finite
cold sources is spelled out in the corresponding definitions.
-/

namespace ReactiveGraphQL

/-- JavaScript runtime values as they flow through the engine: `null`,
`undefined`, `NaN`, numbers, strings, arrays, plain objects (ordered
key/value lists) and `Error` instances. -/
inductive JSValue where
  | null : JSValue
  | undef : JSValue
  | nan : JSValue
  | int : Int → JSValue
  | str : String → JSValue
  | arr : List JSValue → JSValue
  | obj : List (String × JSValue) → JSValue
  | err : String → JSValue

/-- `value === null` in JavaScript. -/
def JSValue.isNullJS : JSValue → Bool
  | .null => true
  | _ => false

/-- `src/jstutils/isNullish.ts`: true for `null`, `undefined`, or `NaN`. -/
def isNullish : JSValue → Bool
  | .null => true
  | .undef => true
  | .nan => true
  | _ => false

/-- `src/jstutils/isInvalid.ts`: true for `undefined` or `NaN`. -/
def isInvalid : JSValue → Bool
  | .undef => true
  | .nan => true
  | _ => false

/-- `result instanceof Error` together with extraction of the message. -/
def JSValue.asError : JSValue → Option String
  | .err m => some m
  | _ => none

/-- A segment of a response path: a field response key or a list index
(`graphql/jsutils/Path`, used through `addPath` / `responsePathAsArray`). -/
inductive PathSeg where
  | key : String → PathSeg
  | index : Nat → PathSeg
  deriving DecidableEq

/-- An error as carried by the engine: a message plus, once located, the
response path.  A raw (just thrown) error has `path = none`. -/
structure GError where
  message : String
  path : Option (List PathSeg)
  deriving DecidableEq

/-- `locatedError` from `graphql/error`: attaches the current response path
to a raw error; an error that already carries a path is returned as is. -/
def locatedError (e : GError) (path : List PathSeg) : GError :=
  match e.path with
  | some _ => e
  | none => { message := e.message, path := some path }

/-- The declared output types the completion claims range over:
`GraphQLNonNull`, `GraphQLList` and leaf (scalar/enum) types with their
serializer. -/
inductive OutputType where
  | nonNull : OutputType → OutputType
  | listOf : OutputType → OutputType
  | leaf : String → (JSValue → JSValue) → OutputType

/-- `isNonNullType` from `graphql`. -/
def isNonNullType : OutputType → Bool
  | .nonNull _ => true
  | _ => false

/-- A cold RxJS observable of a reactive-graphql execution, described by
what a (single, synchronous) subscription observes: the values emitted in
order, the optional terminal error notification (`none` means the stream
completes), and the errors the stream pushes into the execution context
error accumulator while it is subscribed, in push order. -/
structure ObsStream where
  emits : List JSValue
  termError : Option GError
  pushes : List GError

/-- RxJS `of(v)`: emit a single value and complete. -/
def ofValue (v : JSValue) : ObsStream :=
  ⟨[v], none, []⟩

/-- Prepends a value to an emitted combination array (helper for the
`combineLatest` semantics below). -/
def prependToArr (v : JSValue) : JSValue → JSValue
  | .arr vs => .arr (v :: vs)
  | x => x

/-- RxJS `combineLatest` over a list of observables, specialised to finite
cold sources subscribed synchronously (as in the engine, where every input
is built from `of`, resolver streams and recursive completions).  The
sources are subscribed in order; each runs to termination before the next
is subscribed.  Consequently:

* the combination emits only while the last source is live, every earlier
  source being frozen at its last value;
* if an earlier source terminates with an error, the output errors at once
  and the remaining sources are never subscribed;
* a source that completes without emitting prevents any output emission;
* `combineLatest([])` completes without emitting anything (RxJS behaviour
  for an empty array — exactly the case worked around for lists in
  `completeListValue` but not in `combinePropsLatest`). -/
def combineLatest : List ObsStream → ObsStream
  | [] => ⟨[], none, []⟩
  | [s] => ⟨s.emits.map (fun v => JSValue.arr [v]), s.termError, s.pushes⟩
  | s :: s2 :: rest =>
    match s.termError with
    | some e => ⟨[], some e, s.pushes⟩
    | none =>
      let c := combineLatest (s2 :: rest)
      match s.emits.getLast? with
      | none => ⟨[], c.termError, s.pushes ++ c.pushes⟩
      | some lastv =>
        ⟨c.emits.map (prependToArr lastv), c.termError, s.pushes ++ c.pushes⟩

/-- `src/rxutils/combinePropsLatest.ts`: `combineLatest` over the values of
an ordered key/stream mapping, re-assembling each emitted array into an
object with the same keys. -/
def combinePropsLatest (input : List (String × ObsStream)) : ObsStream :=
  let keys := input.map Prod.fst
  let c := combineLatest (input.map Prod.snd)
  ⟨c.emits.map (fun e =>
      match e with
      | .arr vs => JSValue.obj (keys.zip vs)
      | x => x),
    c.termError, c.pushes⟩

/-- The slice of `GraphQLResolveInfo` the completion functions read when
building error messages. -/
structure ResolveInfo where
  parentTypeName : String
  fieldName : String

/-- A shallow rendering of `src/jstutils/inspect.ts` (a toolkit utility the
engine only uses inside error message text). -/
def inspectJS : JSValue → String
  | .null => "null"
  | .undef => "undefined"
  | .nan => "NaN"
  | .int n => toString n
  | .str s => s
  | .arr _ => "[Array]"
  | .obj _ => "[Object]"
  | .err m => m

/-- The message of the non-null violation raised (in intent) by
`completeValue` for a `NonNull` type. -/
def nonNullViolationMessage (info : ResolveInfo) : String :=
  "Cannot return null for non-nullable field " ++ info.parentTypeName ++
    "." ++ info.fieldName ++ "."

/-- The `invariant` message of `completeListValue` for a non-iterable. -/
def expectedIterableMessage (info : ResolveInfo) : String :=
  "Expected Iterable, but did not find one for field " ++
    info.parentTypeName ++ "." ++ info.fieldName ++ "."

/-- The message raised by `completeLeafValue` for an invalid serialization
result. -/
def invalidLeafMessage (typeName : String) (v : JSValue) : String :=
  "Expected a value of type \"" ++ typeName ++ "\" but received: " ++
    inspectJS v

/-- `handleFieldError` (execute.ts lines 482-505): locate the raw error at
the current path; for a non-nullable return type re-throw the located error
(modelled as `Except.error`, the throw escaping to the caller), otherwise
log it and resolve `null` for the field (modelled as `Except.ok` carrying
the error to be pushed by the caller, which substitutes `null`). -/
def handleFieldError (rawError : GError) (path : List PathSeg)
    (returnType : OutputType) : Except GError GError :=
  let error := locatedError rawError path
  if isNonNullType returnType then .error error else .ok error

/-- The value `completeValue` returns.  In the source its declared type is
`Observable<unknown>`; the extra `nullRef` constructor represents the
JavaScript `null` reference against which `completeValue` compares its
recursive result (`if (completed === null)`), a comparison kept here
exactly as in the source and proved dead below. -/
inductive CompletedVal where
  | obs : ObsStream → CompletedVal
  | nullRef : CompletedVal

/-- One step of the `switchMap(res => completeValue(...))` pipe of
`completeValueCatchingError` (execute.ts lines 448-460): complete each
value emitted by the resolver stream in order; the first error — a
synchronous throw out of `completeValue` or an error notification of the
inner completed stream — terminates processing.  Returns the concatenated
inner emissions, the concatenated inner error pushes, and the terminating
raw error if any. -/
def switchMapCompleted (f : JSValue → Except GError CompletedVal) :
    List JSValue → List JSValue × List GError × Option GError
  | [] => ([], [], none)
  | v :: rest =>
    match f v with
    | .error e => ([], [], some e)
    | .ok .nullRef =>
      -- unreachable: `completeValue` never returns the null reference
      -- (theorem `completeValue_never_nullRef` below); in JavaScript,
      -- handing `null` to `switchMap` would fault.
      ([], [], some ⟨"switchMap received null instead of an Observable", none⟩)
    | .ok (.obs o) =>
      match o.termError with
      | some e => (o.emits, o.pushes, some e)
      | none =>
        let (es, ps, r) := switchMapCompleted f rest
        (o.emits ++ es, o.pushes ++ ps, r)

/-- The observable built by `completeValueCatchingError` from a resolver
stream (the non-`Error` case of execute.ts lines 448-477): pipe the stream
through `switchMap` into `completeValue`, then through `catchError` into
`handleFieldError`.  A raw error reaching `catchError` either becomes a
terminal error notification (non-nullable type, `handleFieldError`
throws) or is pushed and replaced by a single `null` emission. -/
def completeValueCatchingErrorStream (f : JSValue → Except GError CompletedVal)
    (returnType : OutputType) (path : List PathSeg)
    (input : ObsStream) : ObsStream :=
  let (es, ps, r) := switchMapCompleted f input.emits
  match (match r with | some e => some e | none => input.termError) with
  | none => ⟨es, none, input.pushes ++ ps⟩
  | some rawE =>
    match handleFieldError rawE path returnType with
    | .error located => ⟨es, some located, input.pushes ++ ps⟩
    | .ok located => ⟨es ++ [JSValue.null], none, input.pushes ++ ps ++ [located]⟩

/-- `completeLeafValue` (execute.ts lines 657-667): serialize; if the
serialized value is invalid (undefined or NaN), throw; otherwise emit the
serialized value once. -/
def completeLeafValue (typeName : String) (serialize : JSValue → JSValue)
    (v : JSValue) : Except GError CompletedVal :=
  let serializedResult := serialize v
  if isInvalid serializedResult then
    .error ⟨invalidLeafMessage typeName v, none⟩
  else
    .ok (.obs (ofValue serializedResult))

/-- The `forEach(result, (item, index) => ...)` loop of `completeListValue`
(execute.ts lines 633-644): build, per index, the completed stream
`completeValueCatchingError(exeContext, itemType, ..., addPath(path, index),
of(item))`.  `completeItem` is the completion of the item type at a given
path. -/
def buildListItemStreams (itemType : OutputType) (path : List PathSeg)
    (completeItem : List PathSeg → JSValue → Except GError CompletedVal) :
    List JSValue → Nat → List ObsStream
  | [], _ => []
  | x :: rest, i =>
    completeValueCatchingErrorStream (completeItem (path ++ [.index i]))
        itemType (path ++ [.index i]) (ofValue x) ::
      buildListItemStreams itemType path completeItem rest (i + 1)

/-- `completeListValue` (execute.ts lines 612-649) after the iterability
invariant: build the per-index completed streams; an empty iterable
returns `of([])` directly (the `completedResults.length === 0` guard,
"avoid blocking in switchMap with empty arrays"); otherwise combine-latest
the per-index streams. -/
def completeListValue (itemType : OutputType) (path : List PathSeg)
    (xs : List JSValue)
    (completeItem : List PathSeg → JSValue → Except GError CompletedVal) :
    Except GError CompletedVal :=
  let completedResults := buildListItemStreams itemType path completeItem xs 0
  if completedResults.length = 0 then .ok (.obs (ofValue (.arr [])))
  else .ok (.obs (combineLatest completedResults))

/-- `completeValue` (execute.ts lines 514-603) for the embedded output
types, with the branch order of the source: throw emitted `Error`
instances; for `NonNull`, complete for the inner type and compare the
completed result — an `Observable` — against `null` (the comparison from
line 538, dead because `completeValue` never returns `null`); return
`of(null)` for nullish values; recurse through lists; serialize leaves. -/
def completeValue (info : ResolveInfo) (t : OutputType) (path : List PathSeg)
    (v : JSValue) : Except GError CompletedVal :=
  match v.asError with
  | some m => .error ⟨m, none⟩
  | none =>
    match t with
    | .nonNull u =>
      match completeValue info u path v with
      | .error e => .error e
      | .ok completed =>
        match completed with
        | .nullRef => .error ⟨nonNullViolationMessage info, none⟩
        | .obs o => .ok (.obs o)
    | .listOf u =>
      if isNullish v then .ok (.obs (ofValue .null))
      else
        match v with
        | .arr xs =>
          completeListValue u path xs (fun p x => completeValue info u p x)
        | _ => .error ⟨expectedIterableMessage info, none⟩
    | .leaf typeName serialize =>
      if isNullish v then .ok (.obs (ofValue .null))
      else completeLeafValue typeName serialize v
termination_by sizeOf t
decreasing_by all_goals simp_wf

/-- `completeValueCatchingError` (execute.ts lines 431-477): an `Error`
returned by `resolveFieldValueOrError` goes straight to `handleFieldError`
(whose throw, for a non-nullable type, escapes synchronously to the
caller); a stream is piped through `switchMap`/`catchError` as in
`completeValueCatchingErrorStream`. -/
def completeValueCatchingError (info : ResolveInfo) (returnType : OutputType)
    (path : List PathSeg) (result : Except GError ObsStream) :
    Except GError ObsStream :=
  match result with
  | .error e =>
    match handleFieldError e path returnType with
    | .error located => .error located
    | .ok located => .ok ⟨[JSValue.null], none, [located]⟩
  | .ok stream =>
    .ok (completeValueCatchingErrorStream
      (fun v => completeValue info returnType path v) returnType path stream)

/-- A field definition of an object type: declared output type plus the
resolver, already normalised to `Error | Observable` as by
`resolveFieldValueOrError` (execute.ts lines 375-409: a thrown error is
returned as an `Error` value, a promise or plain value is wrapped into a
stream). -/
structure FieldDef where
  type : OutputType
  resolve : JSValue → Except GError ObsStream

/-- An object type of the schema: its name and field definitions in order. -/
structure ObjectTypeDef where
  name : String
  fields : List (String × FieldDef)

/-- `getFieldDef` from `graphql/execution/execute`: field lookup on the
parent type. -/
def getFieldDef (parentType : ObjectTypeDef) (fieldName : String) :
    Option FieldDef :=
  parentType.fields.lookup fieldName

/-- `resolveField` (execute.ts lines 327-369).  When the parent type has no
definition for the field, the source returns `of(undefined)` — an
observable emitting `undefined`, not the `undefined` value itself; `none`
models a JavaScript `undefined` return, which never happens.  Otherwise
the resolver result is completed by `completeValueCatchingError`, whose
synchronous throw (non-nullable type over an `Error` result) escapes to
the caller. -/
def resolveField (parentType : ObjectTypeDef) (source : JSValue)
    (fieldName : String) (path : List PathSeg) :
    Except GError (Option ObsStream) :=
  match getFieldDef parentType fieldName with
  | none => .ok (some (ofValue JSValue.undef))
  | some fieldDef =>
    let info : ResolveInfo := ⟨parentType.name, fieldName⟩
    let result := fieldDef.resolve source
    (completeValueCatchingError info fieldDef.type path result).map some

/-- The field loop of `executeFields` (execute.ts lines 299-316): resolve
every field of the mapping in order; a field whose resolution is
`undefined` (`if (result !== undefined)`) is left out of the `results`
object.  The fields mapping binds each response key to the field name of
its nodes; a synchronous throw out of `resolveField` escapes to the
caller. -/
def executeFieldsResults (parentType : ObjectTypeDef) (source : JSValue)
    (path : List PathSeg) :
    List (String × String) → Except GError (List (String × ObsStream))
  | [] => .ok []
  | (responseName, fieldName) :: rest => do
    let result ← resolveField parentType source fieldName
      (path ++ [.key responseName])
    let restResults ← executeFieldsResults parentType source path rest
    pure (match result with
      | some s => (responseName, s) :: restResults
      | none => restResults)

/-- `executeFields` (execute.ts lines 292-319): the stream of the collected
`results` mapping under `combinePropsLatest`. -/
def executeFields (parentType : ObjectTypeDef) (source : JSValue)
    (path : List PathSeg) (fields : List (String × String)) :
    Except GError ObsStream :=
  (executeFieldsResults parentType source path fields).map combinePropsLatest

/-- The `Int` leaf type with the identity serializer of the model
scenarios. -/
def intType : OutputType := .leaf "Int" (fun v => v)

/-- A `Query` type with a single non-nullable `value` field whose resolver
stream emits `null` (the schema of the rx-subscriptions test, with the
resolved observable emitting `null`). -/
def queryTypeValueNonNull : ObjectTypeDef :=
  ⟨"Query",
    [("value",
      { type := .nonNull intType,
        resolve := fun _ => .ok (ofValue JSValue.null) })]⟩

/-- A `Query` type exposing no fields at all. -/
def queryTypeEmpty : ObjectTypeDef := ⟨"Query", []⟩

/-- The guard `if (completed === null)` of `completeValue` (execute.ts line
538) is dead: `completeValue` always returns an observable, never the
`null` reference the guard compares against, so the non-null violation it
is meant to raise is unreachable. -/
theorem completeValue_never_nullRef (info : ResolveInfo) (t : OutputType)
    (path : List PathSeg) (v : JSValue) :
    completeValue info t path v ≠ .ok .nullRef := by
  cases v <;> cases t <;>
    simp only [completeValue, completeListValue, completeLeafValue,
      isNullish, JSValue.asError, ofValue] <;>
    (repeat' split) <;> simp

/-- C1: a field declared `NonNull(Int)` whose resolver stream emits `null`
produces, per the claim, a located non-null violation that propagates to
the nearest nullable ancestor and is appended to the error accumulator.
The code instead emits the snapshot `{ value: null }` with no terminal
error, and the accumulator receives nothing: `completeValue` compares its
completed observable against `null` (a comparison that can never be true,
`completeValue_never_nullRef`), so the violation is never raised. -/
theorem nonNull_null_emits_null_without_error :
    executeFields queryTypeValueNonNull (JSValue.obj []) []
        [("value", "value")] =
      .ok ⟨[JSValue.obj [("value", JSValue.null)]], none, []⟩ := by
  simp [executeFields, executeFieldsResults, resolveField, getFieldDef,
    queryTypeValueNonNull, completeValueCatchingError,
    completeValueCatchingErrorStream, switchMapCompleted, completeValue,
    completeLeafValue, isNullish, JSValue.asError, ofValue, intType,
    combinePropsLatest, combineLatest, List.lookup, Except.map]
  rfl

/-- C2: for a response key with no field definition on the parent type, the
claim says `resolveField` returns `undefined` and the key is omitted from
every emitted object.  The code returns `of(undefined)` — an observable —
so the `result !== undefined` guard of `executeFields` never fires and the
key is present, bound to `undefined`, in the emitted object. -/
theorem unknown_field_key_is_present_bound_to_undefined :
    resolveField queryTypeEmpty (JSValue.obj []) "youDontKnowMe"
        [PathSeg.key "youDontKnowMe"] =
      .ok (some (ofValue JSValue.undef)) ∧
    executeFields queryTypeEmpty (JSValue.obj []) []
        [("youDontKnowMe", "youDontKnowMe")] =
      .ok ⟨[JSValue.obj [("youDontKnowMe", JSValue.undef)]], none, []⟩ := by
  constructor
  · simp [resolveField, getFieldDef, queryTypeEmpty, List.lookup]
  · simp [executeFields, executeFieldsResults, resolveField, getFieldDef,
      queryTypeEmpty, ofValue, combinePropsLatest, combineLatest,
      List.lookup, Except.map]
    rfl

/-- C3 counterexample: for an empty fields mapping, the claim predicts a
stream that emits exactly one value, the empty object, and completes; the
code produces `combineLatest([])`, which completes without emitting. -/
theorem executeFields_empty_does_not_emit_empty_object :
    executeFields queryTypeEmpty (JSValue.obj []) [] [] ≠
      .ok ⟨[JSValue.obj []], none, []⟩ := by
  simp [executeFields, executeFieldsResults, combinePropsLatest,
    combineLatest, Except.map]

/-- C3 (amended): evaluating an empty fields mapping yields
`combinePropsLatest` of an empty mapping — a stream that completes
immediately, emitting nothing and pushing no error. -/
theorem executeFields_empty_completes_without_emitting
    (parentType : ObjectTypeDef) (source : JSValue) (path : List PathSeg) :
    executeFields parentType source path [] = .ok ⟨[], none, []⟩ := rfl

/-- A response snapshot as assembled by `buildResponse`: the `data` member
(always present, possibly `null`) and the optional `errors` member, here
recorded by content as a caller observes it at emission time. -/
structure Snapshot where
  data : JSValue
  errors : Option (List GError)

/-- `buildResponse` (execute.ts lines 167-184), pointwise on one emission
of the data observable: when the accumulator is empty and the data value
is not `null`, the snapshot holds only `data`; otherwise it holds both
`errors` and `data`. -/
def buildResponse (errs : List GError) (d : JSValue) : Snapshot :=
  if errs.length = 0 ∧ d.isNullJS = false then ⟨d, none⟩
  else ⟨d, some errs⟩

/-- The two ways an execution touches the response pipeline over time:
`handleFieldError` pushing a located error into the context accumulator
(`exeContext.errors.push(error)`, execute.ts line 503), and the data
observable emitting a value that `buildResponse` turns into a snapshot. -/
inductive ExecEvent where
  | fieldError : GError → ExecEvent
  | emitData : JSValue → ExecEvent

/-- The accumulator/data pairs at each snapshot emission of an event
trace, starting from accumulator `errs`. -/
def snapStates : List GError → List ExecEvent → List (List GError × JSValue)
  | _, [] => []
  | errs, .fieldError e :: rest => snapStates (errs ++ [e]) rest
  | errs, .emitData d :: rest => (errs, d) :: snapStates errs rest

/-- The snapshots a subscriber receives over an event trace, each built by
`buildResponse` from the accumulator content at its emission. -/
def execSnapshots (errs : List GError) (evs : List ExecEvent) :
    List Snapshot :=
  (snapStates errs evs).map (fun p => buildResponse p.1 p.2)

/-- The content of the context error accumulator once the trace has run. -/
def finalErrors : List GError → List ExecEvent → List GError
  | errs, [] => errs
  | errs, .fieldError e :: rest => finalErrors (errs ++ [e]) rest
  | errs, .emitData _ :: rest => finalErrors errs rest

/-- The accumulator only ever grows by appending: its final content
extends its initial content. -/
theorem finalErrors_extends (evs : List ExecEvent) (errs0 : List GError) :
    ∃ tl, finalErrors errs0 evs = errs0 ++ tl := by
  induction evs generalizing errs0 with
  | nil => exact ⟨[], by simp [finalErrors]⟩
  | cons ev rest ih =>
    cases ev with
    | fieldError e =>
      obtain ⟨tl, htl⟩ := ih (errs0 ++ [e])
      exact ⟨[e] ++ tl, by simp [finalErrors, htl]⟩
    | emitData d => exact ih errs0

/-- Every accumulator state recorded at a snapshot emission extends the
initial accumulator. -/
theorem snapStates_extends (evs : List ExecEvent) (errs0 : List GError)
    (p : List GError × JSValue) (hp : p ∈ snapStates errs0 evs) :
    ∃ tl, p.1 = errs0 ++ tl := by
  induction evs generalizing errs0 with
  | nil => simp [snapStates] at hp
  | cons ev rest ih =>
    cases ev with
    | fieldError e =>
      obtain ⟨tl, htl⟩ := ih (errs0 ++ [e]) (by simpa [snapStates] using hp)
      exact ⟨[e] ++ tl, by simp [htl]⟩
    | emitData d =>
      rcases (by simpa [snapStates] using hp :
          p = (errs0, d) ∨ p ∈ snapStates errs0 rest) with h | h
      · exact ⟨[], by simp [h]⟩
      · exact ih errs0 h

/-- Along a trace, the accumulator states at successive snapshot emissions
extend one another (the accumulator is append-only). -/
theorem snapStates_pairwise (evs : List ExecEvent) (errs0 : List GError) :
    (snapStates errs0 evs).Pairwise (fun p q => ∃ tl, q.1 = p.1 ++ tl) := by
  induction evs generalizing errs0 with
  | nil => simp [snapStates]
  | cons ev rest ih =>
    cases ev with
    | fieldError e => simpa [snapStates] using ih (errs0 ++ [e])
    | emitData d =>
      refine List.Pairwise.cons (fun q hq => ?_) (ih errs0)
      simpa using snapStates_extends rest errs0 q hq

/-- C7: across the snapshots of one execution, errors grow monotonically:
if an emitted snapshot carries an errors member containing `e`, every
later snapshot carries an errors member that extends it by appending, so
`e` is still present and nothing is removed or deduplicated. -/
theorem snapshot_errors_grow_monotonically (errs0 : List GError)
    (evs : List ExecEvent) (i j : Nat) (hij : i ≤ j)
    (hi : i < (execSnapshots errs0 evs).length)
    (hj : j < (execSnapshots errs0 evs).length)
    (e : GError) (errsI : List GError)
    (hErrsI : ((execSnapshots errs0 evs).get ⟨i, hi⟩).errors = some errsI)
    (he : e ∈ errsI) :
    ∃ errsJ tl, ((execSnapshots errs0 evs).get ⟨j, hj⟩).errors = some errsJ ∧
      errsJ = errsI ++ tl ∧ e ∈ errsJ := by
  have hi' : i < (snapStates errs0 evs).length := by
    simpa [execSnapshots] using hi
  have hj' : j < (snapStates errs0 evs).length := by
    simpa [execSnapshots] using hj
  have hgeti : ((execSnapshots errs0 evs).get ⟨i, hi⟩) =
      buildResponse ((snapStates errs0 evs).get ⟨i, hi'⟩).1
        ((snapStates errs0 evs).get ⟨i, hi'⟩).2 := by
    simp [execSnapshots]
  have hgetj : ((execSnapshots errs0 evs).get ⟨j, hj⟩) =
      buildResponse ((snapStates errs0 evs).get ⟨j, hj'⟩).1
        ((snapStates errs0 evs).get ⟨j, hj'⟩).2 := by
    simp [execSnapshots]
  -- the errors member, when present, is the accumulator content itself
  have hcontentI : ((snapStates errs0 evs).get ⟨i, hi'⟩).1 = errsI := by
    rw [hgeti] at hErrsI
    unfold buildResponse at hErrsI
    split at hErrsI
    · simp at hErrsI
    · exact (by simpa using hErrsI.symm : errsI = _).symm
  -- the later accumulator state extends the earlier one
  have hext : ∃ tl, ((snapStates errs0 evs).get ⟨j, hj'⟩).1 =
      ((snapStates errs0 evs).get ⟨i, hi'⟩).1 ++ tl := by
    rcases Nat.lt_or_ge i j with hlt | hge
    · exact (List.pairwise_iff_get.mp (snapStates_pairwise evs errs0))
        ⟨i, hi'⟩ ⟨j, hj'⟩ hlt
    · have : i = j := Nat.le_antisymm hij hge
      subst this
      exact ⟨[], by simp⟩
  obtain ⟨tl, htl⟩ := hext
  refine ⟨((snapStates errs0 evs).get ⟨j, hj'⟩).1, tl, ?_, ?_, ?_⟩
  · rw [hgetj]
    unfold buildResponse
    split
    · rename_i hcond
      exfalso
      have : ((snapStates errs0 evs).get ⟨j, hj'⟩).1 = [] :=
        List.eq_nil_of_length_eq_zero hcond.1
      rw [htl, hcontentI] at this
      have : errsI = [] := by
        rcases List.append_eq_nil.mp this with ⟨h1, _⟩
        exact h1
      simp [this] at he
    · rfl
  · rw [htl, hcontentI]
  · rw [htl, hcontentI]
    exact List.mem_append_left _ he

/-- Witness for C7 on a concrete trace: an error is pushed, a snapshot is
emitted, a second error is pushed, a second snapshot is emitted; the first
snapshot's error is still present, by appending, in the second. -/
theorem snapshot_errors_grow_monotonically_witness :
    (0 : Nat) ≤ 1 ∧
    ∃ errsJ tl,
      ((execSnapshots []
          [ExecEvent.fieldError ⟨"boom", none⟩,
           ExecEvent.emitData (JSValue.obj []),
           ExecEvent.fieldError ⟨"bam", none⟩,
           ExecEvent.emitData (JSValue.obj [])]).get ⟨1, by decide⟩).errors =
        some errsJ ∧
      errsJ = [⟨"boom", none⟩] ++ tl ∧ ⟨"boom", none⟩ ∈ errsJ :=
  ⟨by decide,
    snapshot_errors_grow_monotonically [] _ 0 1 (by decide) (by decide)
      (by decide) ⟨"boom", none⟩ [⟨"boom", none⟩] (by simp [execSnapshots,
        snapStates, buildResponse, JSValue.isNullJS]) (by decide)⟩

/-- C8: the shape of every emitted snapshot.  If the accumulator is empty
and the data value is non-null, only the `data` member is produced;
otherwise both the `errors` member (the accumulator) and the `data` member
(possibly `null`) are produced. -/
theorem buildResponse_shape (errs : List GError) (d : JSValue) :
    (errs.length = 0 → d.isNullJS = false → buildResponse errs d = ⟨d, none⟩) ∧
    (errs.length ≠ 0 ∨ d.isNullJS = true →
      buildResponse errs d = ⟨d, some errs⟩) := by
  constructor
  · intro h1 h2
    simp [buildResponse, h1, h2]
  · intro h
    rcases h with h | h
    · simp [buildResponse, h]
    · simp [buildResponse, h]

/-- Witness for C8: with no errors and non-null data only `data` appears;
with an error, or with null data, both members appear. -/
theorem buildResponse_shape_witness :
    buildResponse [] (JSValue.obj []) = ⟨JSValue.obj [], none⟩ ∧
    buildResponse [⟨"boom", none⟩] JSValue.null =
      ⟨JSValue.null, some [⟨"boom", none⟩]⟩ :=
  ⟨(buildResponse_shape [] (JSValue.obj [])).1 rfl rfl,
    (buildResponse_shape [⟨"boom", none⟩] JSValue.null).2 (Or.inr rfl)⟩

/-- A snapshot as `buildResponse` actually builds it: the `errors` member,
when present, is the execution context's error array itself
(`errors: exeContext.errors`, execute.ts line 179 — no copy is taken), so
the snapshot stores a reference, not content. -/
structure SnapshotRef where
  data : JSValue
  hasErrorsRef : Bool

/-- `buildResponse` under the reference reading: the branch that includes
`errors` stores the reference to the accumulator. -/
def buildResponseRef (errs : List GError) (d : JSValue) : SnapshotRef :=
  if errs.length = 0 ∧ d.isNullJS = false then ⟨d, false⟩
  else ⟨d, true⟩

/-- The snapshots of a trace under the reference reading. -/
def execSnapshotsRef (errs : List GError) (evs : List ExecEvent) :
    List SnapshotRef :=
  (snapStates errs evs).map (fun p => buildResponseRef p.1 p.2)

/-- Dereferencing a retained snapshot's `errors` member against the
accumulator's current content: the member, when present, is the mutable
array itself. -/
def readSnapshotErrors (ctxErrors : List GError) (s : SnapshotRef) :
    Option (List GError) :=
  if s.hasErrorsRef then some ctxErrors else none

/-- Every error pushed during the trace ends up in the final accumulator. -/
theorem fieldError_mem_finalErrors (evs : List ExecEvent)
    (errs0 : List GError) (e : GError)
    (hev : ExecEvent.fieldError e ∈ evs) : e ∈ finalErrors errs0 evs := by
  induction evs generalizing errs0 with
  | nil => simp at hev
  | cons ev rest ih =>
    cases ev with
    | fieldError e' =>
      rcases (by simpa using hev :
          e = e' ∨ ExecEvent.fieldError e ∈ rest) with h | h
      · subst h
        obtain ⟨tl, htl⟩ := finalErrors_extends rest (errs0 ++ [e])
        simp [finalErrors, htl]
      · exact ih (errs0 ++ [e']) h
    | emitData d =>
      have h : ExecEvent.fieldError e ∈ rest := by simpa using hev
      exact ih errs0 h

/-- C10: a snapshot emitted with an errors member carries the accumulator
itself, so reading that member after the execution has progressed yields
the accumulator's current content — containing every error pushed during
the whole trace, including errors pushed after the snapshot was emitted. -/
theorem retained_snapshot_errors_alias_accumulator (errs0 : List GError)
    (evs : List ExecEvent) (s : SnapshotRef)
    (hs : s ∈ execSnapshotsRef errs0 evs) (h : s.hasErrorsRef = true) :
    readSnapshotErrors (finalErrors errs0 evs) s =
      some (finalErrors errs0 evs) ∧
    ∀ e, ExecEvent.fieldError e ∈ evs → e ∈ finalErrors errs0 evs := by
  refine ⟨by simp [readSnapshotErrors, h], fun e hev => ?_⟩
  exact fieldError_mem_finalErrors evs errs0 e hev

/-- Witness for C10 on a concrete trace: a snapshot is emitted (with the
errors member, data being `null`) while the accumulator is empty; an error
is pushed only afterwards; reading the retained snapshot at the end of the
trace shows that very error. -/
theorem retained_snapshot_errors_alias_accumulator_witness :
    (buildResponseRef [] JSValue.null ∈
        execSnapshotsRef []
          [ExecEvent.emitData JSValue.null,
           ExecEvent.fieldError ⟨"late", none⟩]) ∧
    readSnapshotErrors
        (finalErrors []
          [ExecEvent.emitData JSValue.null,
           ExecEvent.fieldError ⟨"late", none⟩])
        (buildResponseRef [] JSValue.null) =
      some (finalErrors []
        [ExecEvent.emitData JSValue.null,
         ExecEvent.fieldError ⟨"late", none⟩]) ∧
    ⟨"late", none⟩ ∈ finalErrors []
      [ExecEvent.emitData JSValue.null,
       ExecEvent.fieldError ⟨"late", none⟩] := by
  refine ⟨by simp [execSnapshotsRef, snapStates, buildResponseRef,
    JSValue.isNullJS], ?_, ?_⟩
  · exact (retained_snapshot_errors_alias_accumulator [] _
      (buildResponseRef [] JSValue.null)
      (by simp [execSnapshotsRef, snapStates, buildResponseRef,
        JSValue.isNullJS])
      (by simp [buildResponseRef, JSValue.isNullJS])).1
  · exact (retained_snapshot_errors_alias_accumulator [] _
      (buildResponseRef [] JSValue.null)
      (by simp [execSnapshotsRef, snapStates, buildResponseRef,
        JSValue.isNullJS])
      (by simp [buildResponseRef, JSValue.isNullJS])).2
      ⟨"late", none⟩ (by simp)

/-- A subscription action of the `switchMap` operator: subscribing or
unsubscribing the inner stream spawned by the outer emission of the given
index. -/
inductive SwAct where
  | sub : Nat → SwAct
  | unsub : Nat → SwAct
  deriving DecidableEq

/-- The subscription actions `switchMap` performs on one outer emission
(RxJS `SwitchMapSubscriber._innerSub`): if an inner subscription from the
previous outer value exists, unsubscribe it first, then subscribe the
inner stream built from the new value. -/
def switchMapNextActions (previous : Option Nat) (k : Nat) : List SwAct :=
  (match previous with
    | some j => [SwAct.unsub j]
    | none => []) ++ [SwAct.sub k]

/-- The full subscription log of `switchMap` over the outer emissions,
`previous` holding the index of the currently subscribed inner stream and
`k` the index of the next outer emission. -/
def switchMapLogGo (previous : Option Nat) (k : Nat) :
    List JSValue → List SwAct
  | [] => []
  | _ :: rest => switchMapNextActions previous k ++
      switchMapLogGo (some k) (k + 1) rest

/-- The inner-subscription log of the
`switchMap(res => completeValue(...))` pipe of
`completeValueCatchingError` (execute.ts lines 448-460): each emission of
the resolver stream is a new parent value whose sub-selection stream is
subscribed, the sub-selection of the previous parent value being
unsubscribed first. -/
def completeValueCatchingErrorSwitchLog (resolved : ObsStream) : List SwAct :=
  switchMapLogGo none 0 resolved.emits

/-- In the log, two consecutive outer emissions produce the adjacent
actions "unsubscribe inner `k`, subscribe inner `k + 1`". -/
theorem switchMapLogGo_adjacent (n : Nat) :
    ∀ (vs : List JSValue) (previous : Option Nat) (k : Nat),
      n + 2 ≤ vs.length →
      ∃ l1 l3, switchMapLogGo previous k vs =
        l1 ++ [SwAct.unsub (k + n), SwAct.sub (k + n + 1)] ++ l3 := by
  induction n with
  | zero =>
    intro vs previous k h
    match vs with
    | v :: w :: rest =>
      refine ⟨switchMapNextActions previous k, switchMapLogGo (some (k + 1))
        (k + 2) rest, ?_⟩
      simp [switchMapLogGo, switchMapNextActions]
  | succ n ih =>
    intro vs previous k h
    match vs with
    | v :: rest =>
      have hrest : n + 2 ≤ rest.length := by
        simp at h
        omega
      obtain ⟨l1, l3, hl⟩ := ih rest (some k) (k + 1) hrest
      refine ⟨switchMapNextActions previous k ++ l1, l3, ?_⟩
      simp [switchMapLogGo, hl]
      omega

/-- C4: whenever the resolver stream emits a new parent value (outer
emission `n + 1` after outer emission `n`), the subscription to the
sub-selection built from the previous parent value is unsubscribed before
— indeed immediately before — the sub-selection for the new value is
subscribed. -/
theorem switch_unsubscribes_previous_inner_first (resolved : ObsStream)
    (n : Nat) (h : n + 2 ≤ resolved.emits.length) :
    ∃ l1 l3, completeValueCatchingErrorSwitchLog resolved =
      l1 ++ [SwAct.unsub n, SwAct.sub (n + 1)] ++ l3 := by
  have := switchMapLogGo_adjacent n resolved.emits none 0 h
  simpa [completeValueCatchingErrorSwitchLog] using this

/-- Witness for C4 on a resolver stream with three emissions: the inner
stream of the first value is unsubscribed immediately before the inner
stream of the second value is subscribed. -/
theorem switch_unsubscribes_previous_inner_first_witness :
    0 + 2 ≤ (ObsStream.mk [JSValue.int 1, JSValue.int 2, JSValue.int 3]
        none []).emits.length ∧
    ∃ l1 l3, completeValueCatchingErrorSwitchLog
        ⟨[JSValue.int 1, JSValue.int 2, JSValue.int 3], none, []⟩ =
      l1 ++ [SwAct.unsub 0, SwAct.sub (0 + 1)] ++ l3 :=
  ⟨by decide,
    switch_unsubscribes_previous_inner_first
      ⟨[JSValue.int 1, JSValue.int 2, JSValue.int 3], none, []⟩ 0
      (by decide)⟩

/-- A timed stream: the emissions a subscription observes, as
(time, value) pairs in time order. -/
abbrev TimedEmissions := List (Nat × JSValue)

/-- Emissions of a cold resolver stream invoked (subscribed) at time `t`,
given its emission offsets relative to invocation. -/
def shiftEmissions (t : Nat) (offs : List (Nat × JSValue)) :
    TimedEmissions :=
  offs.map (fun p => (t + p.1, p.2))

/-- The time of the first value of a timed stream — the moment `take(1)`
of `mapToFirstValue` (src/rxutils/mapPromiseToObservale.ts lines 27-34)
fires and its `switchMap` invokes the mapping function. -/
def firstEmissionTime (s : TimedEmissions) : Option Nat :=
  s.head?.map Prod.fst

/-- A field of a serial (mutation) selection set: its response name and
the emissions of its resolved stream relative to the moment the field's
resolution is started. -/
structure SerialFieldSpec where
  responseName : String
  offsets : List (Nat × JSValue)

/-- When a field's resolution is invoked: immediately (time 0) for the
first field of the loop, otherwise at the first emission of the previous
field's result stream (`mapToFirstValue`'s `take(1)` firing). -/
def serialStart : Option TimedEmissions → Option Nat
  | none => some 0
  | some p => firstEmissionTime p

/-- The field loop of `executeFieldsSerially` (execute.ts lines 240-283):
the first field resolves immediately; every later field is queued with
`mapToFirstValue(previousResolvedResult, resolve)`, so its resolution is
invoked at the time the previous field's result stream emits its first
value, and its result stream then carries all of its own emissions.  A
previous result that never emits leaves the next field unstarted. -/
def executeFieldsSeriallyGo :
    Option TimedEmissions → List SerialFieldSpec →
      List (String × TimedEmissions)
  | _, [] => []
  | previousResolvedResult, f :: rest =>
    let result : TimedEmissions :=
      match serialStart previousResolvedResult with
      | none => []
      | some t => shiftEmissions t f.offsets
    (f.responseName, result) :: executeFieldsSeriallyGo (some result) rest

/-- The per-field result streams of `executeFieldsSerially`. -/
def executeFieldsSeriallyStreams (fields : List SerialFieldSpec) :
    List (String × TimedEmissions) :=
  executeFieldsSeriallyGo none fields

/-- Insertion of a time into a sorted time list. -/
def insertTime (t : Nat) : List Nat → List Nat
  | [] => [t]
  | x :: xs => if t ≤ x then t :: x :: xs else x :: insertTime t xs

/-- Sorting of event times. -/
def sortTimes : List Nat → List Nat :=
  List.foldr insertTime []

/-- The latest value a timed stream has emitted at time `t`. -/
def latestAt (s : TimedEmissions) (t : Nat) : Option JSValue :=
  ((s.filter (fun p => p.1 ≤ t)).getLast?).map Prod.snd

/-- The latest values of all streams at time `t`, defined when every
stream has emitted. -/
def allLatest : List TimedEmissions → Nat → Option (List JSValue)
  | [], _ => some []
  | s :: rest, t =>
    match latestAt s t, allLatest rest t with
    | some v, some vs => some (v :: vs)
    | _, _ => none

/-- All event times of a family of timed streams, sorted without
duplicates. -/
def eventTimesOf (ss : List TimedEmissions) : List Nat :=
  sortTimes ((ss.foldr (fun s acc => s.map Prod.fst ++ acc) []).dedup)

/-- RxJS `combineLatest` over timed streams: at every event time at which
all inputs have emitted, emit the array of latest values. -/
def combineLatestTimed (ss : List TimedEmissions) : TimedEmissions :=
  (eventTimesOf ss).filterMap
    (fun t => (allLatest ss t).map (fun vs => (t, JSValue.arr vs)))

/-- `combinePropsLatest` over timed streams, re-assembling arrays into
keyed objects. -/
def combinePropsLatestTimed (input : List (String × TimedEmissions)) :
    TimedEmissions :=
  (combineLatestTimed (input.map Prod.snd)).map
    (fun p => (p.1,
      match p.2 with
      | .arr vs => JSValue.obj ((input.map Prod.fst).zip vs)
      | x => x))

/-- `executeFieldsSerially` (execute.ts line 282): the snapshot stream is
`combinePropsLatest` over the per-field result streams. -/
def executeFieldsSeriallyTimed (fields : List SerialFieldSpec) :
    TimedEmissions :=
  combinePropsLatestTimed (executeFieldsSeriallyStreams fields)

/-- A valid previous result for the serial chain: none (first field) or a
stream that has emitted at least once. -/
def prevOk : Option TimedEmissions → Prop
  | none => True
  | some p => p ≠ []

/-- The serial loop produces one result stream per field. -/
theorem executeFieldsSeriallyGo_length (fields : List SerialFieldSpec)
    (prev : Option TimedEmissions) :
    (executeFieldsSeriallyGo prev fields).length = fields.length := by
  induction fields generalizing prev with
  | nil => rfl
  | cons f rest ih => simp [executeFieldsSeriallyGo, ih]

/-- The serial barrier of `executeFieldsSeriallyGo`: field `k + 1`'s
resolution is invoked exactly at the time field `k`'s result stream emits
its first value, and its result stream carries all of its resolver's
emissions shifted to that start time. -/
theorem serialGo_barrier (k : Nat) :
    ∀ (fields : List SerialFieldSpec) (prev : Option TimedEmissions),
      prevOk prev → (∀ f ∈ fields, f.offsets ≠ []) →
      ∀ fk1, fields.get? (k + 1) = some fk1 →
      ∃ sk sk1 tFirst,
        (executeFieldsSeriallyGo prev fields).get? k = some sk ∧
        (executeFieldsSeriallyGo prev fields).get? (k + 1) = some sk1 ∧
        firstEmissionTime sk.2 = some tFirst ∧
        sk1.2 = shiftEmissions tFirst fk1.offsets := by
  induction k with
  | zero =>
    intro fields prev hprev hne fk1 hfk1
    match fields, hfk1 with
    | f0 :: f1 :: rest, hfk1 =>
      have hf1 : f1 = fk1 := by simpa using hfk1
      subst hf1
      obtain ⟨t0, ht0⟩ : ∃ t0, serialStart prev = some t0 := by
        cases prev with
        | none => exact ⟨0, rfl⟩
        | some p =>
          cases p with
          | nil => exact absurd rfl hprev
          | cons q qs => exact ⟨q.1, rfl⟩
      obtain ⟨o, os, ho⟩ : ∃ o os, f0.offsets = o :: os := by
        cases h : f0.offsets with
        | nil => exact absurd h (hne f0 (by simp))
        | cons o os => exact ⟨o, os, rfl⟩
      simp only [executeFieldsSeriallyGo, List.get?_cons_zero,
        List.get?_cons_succ]
      rw [ht0]
      refine ⟨_, _, t0 + o.1, rfl, rfl, ?_, ?_⟩
      · simp [ho, shiftEmissions, firstEmissionTime]
      · simp [serialStart, ho, shiftEmissions, firstEmissionTime]
  | succ k ih =>
    intro fields prev hprev hne fk1 hfk1
    match fields with
    | f0 :: rest =>
      obtain ⟨t0, ht0⟩ : ∃ t0, serialStart prev = some t0 := by
        cases prev with
        | none => exact ⟨0, rfl⟩
        | some p =>
          cases p with
          | nil => exact absurd rfl hprev
          | cons q qs => exact ⟨q.1, rfl⟩
      obtain ⟨o, os, ho⟩ : ∃ o os, f0.offsets = o :: os := by
        cases h : f0.offsets with
        | nil => exact absurd h (hne f0 (by simp))
        | cons o os => exact ⟨o, os, rfl⟩
      have hprev' : prevOk (some (shiftEmissions t0 f0.offsets)) := by
        simp [prevOk, shiftEmissions, ho]
      have hne' : ∀ f ∈ rest, f.offsets ≠ [] :=
        fun f hf => hne f (by simp [hf])
      have hfk1' : rest.get? (k + 1) = some fk1 := by simpa using hfk1
      obtain ⟨sk, sk1, tFirst, h1, h2, h3, h4⟩ :=
        ih rest (some (shiftEmissions t0 f0.offsets)) hprev' hne' fk1 hfk1'
      refine ⟨sk, sk1, tFirst, ?_, ?_, h3, h4⟩
      · simp only [executeFieldsSeriallyGo, List.get?_cons_succ]
        rw [ht0]
        exact h1
      · simp only [executeFieldsSeriallyGo, List.get?_cons_succ]
        rw [ht0]
        exact h2

/-- C5: in write (mutation) mode, field `k + 1` does not start until field
`k` has produced its first value: its resolution is invoked exactly at the
first-emission time of field `k`'s result stream, every one of its
emissions comes at or after that barrier, its result stream still carries
all of its resolver's emissions, and the snapshot stream is
combine-latest over all per-field result streams. -/
theorem serial_fields_first_value_barrier (fields : List SerialFieldSpec)
    (hne : ∀ f ∈ fields, f.offsets ≠ []) (k : Nat) (fk1 : SerialFieldSpec)
    (hfk1 : fields.get? (k + 1) = some fk1) :
    (∃ sk sk1 tFirst,
      (executeFieldsSeriallyStreams fields).get? k = some sk ∧
      (executeFieldsSeriallyStreams fields).get? (k + 1) = some sk1 ∧
      firstEmissionTime sk.2 = some tFirst ∧
      sk1.2 = shiftEmissions tFirst fk1.offsets ∧
      sk1.2.length = fk1.offsets.length ∧
      (∀ p ∈ sk1.2, tFirst ≤ p.1)) ∧
    executeFieldsSeriallyTimed fields =
      combinePropsLatestTimed (executeFieldsSeriallyStreams fields) := by
  refine ⟨?_, rfl⟩
  obtain ⟨sk, sk1, tFirst, h1, h2, h3, h4⟩ :=
    serialGo_barrier k fields none trivial hne fk1 hfk1
  refine ⟨sk, sk1, tFirst, h1, h2, h3, h4, ?_, ?_⟩
  · rw [h4]
    simp [shiftEmissions]
  · intro p hp
    rw [h4] at hp
    obtain ⟨x, hx, hxe⟩ := List.mem_map.mp hp
    subst hxe
    exact Nat.le_add_right _ _

/-- The first mutation field of the witness scenario: first value after 1
tick, a second value after 5 ticks. -/
def mutationFieldA : SerialFieldSpec :=
  ⟨"a", [(1, JSValue.int 1), (5, JSValue.int 2)]⟩

/-- The second mutation field of the witness scenario: first value 2 ticks
after its (delayed) start. -/
def mutationFieldB : SerialFieldSpec :=
  ⟨"b", [(2, JSValue.int 3)]⟩

/-- Witness for C5 on the two-field mutation scenario. -/
theorem serial_fields_first_value_barrier_witness :
    (∀ f ∈ [mutationFieldA, mutationFieldB], f.offsets ≠ []) ∧
    ((∃ sk sk1 tFirst,
      (executeFieldsSeriallyStreams [mutationFieldA, mutationFieldB]).get? 0 =
        some sk ∧
      (executeFieldsSeriallyStreams [mutationFieldA, mutationFieldB]).get?
          (0 + 1) = some sk1 ∧
      firstEmissionTime sk.2 = some tFirst ∧
      sk1.2 = shiftEmissions tFirst mutationFieldB.offsets ∧
      sk1.2.length = mutationFieldB.offsets.length ∧
      (∀ p ∈ sk1.2, tFirst ≤ p.1)) ∧
    executeFieldsSeriallyTimed [mutationFieldA, mutationFieldB] =
      combinePropsLatestTimed
        (executeFieldsSeriallyStreams [mutationFieldA, mutationFieldB])) :=
  ⟨by simp [mutationFieldA, mutationFieldB],
    serial_fields_first_value_barrier [mutationFieldA, mutationFieldB]
      (by simp [mutationFieldA, mutationFieldB]) 0 mutationFieldB rfl⟩

/-- Membership from `getLast?`. -/
theorem mem_of_getLast?_eq {l : List JSValue} {a : JSValue}
    (h : l.getLast? = some a) : a ∈ l := by
  obtain ⟨hne, heq⟩ :=
    List.mem_getLast?_eq_getLast (show a ∈ l.getLast? by simp [h])
  rw [heq]
  exact List.getLast_mem hne

/-- Indexing of `combineLatest` emissions: every emitted value is an array
of one component per input stream, component `i` being a value that input
stream `i` emitted (its latest at that point). -/
theorem combineLatest_emission_indexing (ss : List ObsStream) :
    ∀ e ∈ (combineLatest ss).emits, ∃ vs, e = JSValue.arr vs ∧
      vs.length = ss.length ∧
      ∀ i (hi : i < ss.length) (hv : i < vs.length),
        vs.get ⟨i, hv⟩ ∈ (ss.get ⟨i, hi⟩).emits := by
  induction ss with
  | nil => simp [combineLatest]
  | cons s rest ih =>
    cases rest with
    | nil =>
      intro e he
      simp only [combineLatest, List.mem_map] at he
      obtain ⟨v, hv, he⟩ := he
      refine ⟨[v], he.symm, by simp, ?_⟩
      intro i hi hv'
      match i, hi with
      | 0, _ => simpa using hv
    | cons s2 rest2 =>
      intro e he
      simp only [combineLatest] at he
      rcases hterm : s.termError with _ | te
      · rw [hterm] at he
        rcases hlast : s.emits.getLast? with _ | lastv
        · rw [hlast] at he
          simp at he
        · rw [hlast] at he
          simp only [List.mem_map] at he
          obtain ⟨e', he', heq⟩ := he
          obtain ⟨vs', hvs'e, hvs'len, hvs'get⟩ := ih e' he'
          subst hvs'e
          refine ⟨lastv :: vs', by simp [prependToArr, ← heq], by simp [hvs'len], ?_⟩
          intro i hi hv
          match i with
          | 0 =>
            simpa using mem_of_getLast?_eq hlast
          | Nat.succ j =>
            have hj : j < (s2 :: rest2).length := by simpa using hi
            have hjv : j < vs'.length := by simp at hv; omega
            simpa using hvs'get j hj hjv
      · rw [hterm] at he
        simp at he

/-- The list item loop builds one completed stream per element. -/
theorem buildListItemStreams_length (itemType : OutputType)
    (path : List PathSeg)
    (ci : List PathSeg → JSValue → Except GError CompletedVal) :
    ∀ (xs : List JSValue) (k : Nat),
      (buildListItemStreams itemType path ci xs k).length = xs.length := by
  intro xs
  induction xs with
  | nil => intro k; rfl
  | cons x rest ih => intro k; simp [buildListItemStreams, ih]

/-- The stream at index `i` of the list item loop is the completed stream
of element `i`, at path `path ++ [index (k + i)]`. -/
theorem buildListItemStreams_get? (itemType : OutputType)
    (path : List PathSeg)
    (ci : List PathSeg → JSValue → Except GError CompletedVal) :
    ∀ (xs : List JSValue) (k i : Nat) (x : JSValue), xs.get? i = some x →
      (buildListItemStreams itemType path ci xs k).get? i =
        some (completeValueCatchingErrorStream
          (ci (path ++ [PathSeg.index (k + i)])) itemType
          (path ++ [PathSeg.index (k + i)]) (ofValue x)) := by
  intro xs
  induction xs with
  | nil => intro k i x hx; simp at hx
  | cons y rest ih =>
    intro k i x hx
    match i with
    | 0 =>
      have hyx : y = x := by simpa using hx
      subst hyx
      simp [buildListItemStreams]
    | Nat.succ j =>
      have hx' : rest.get? j = some x := by simpa using hx
      have := ih (k + 1) j x hx'
      have harith : k + 1 + j = k + (j + 1) := by omega
      rw [harith] at this
      simpa [buildListItemStreams] using this

/-- C6: a list-typed field completed with an empty iterable emits `[]`
immediately as `of([])`, no child stream being built or combined; a
non-empty iterable is completed by combine-latest over the per-index
completed streams â one stream per element, stream `i` completing element
`i` at path index `i` â and every emitted array has one component per
element, component `i` being drawn from element `i`'s completed stream. -/
theorem completeListValue_empty_and_indexing :
    (∀ itemType path ci,
      completeListValue itemType path [] ci =
        .ok (.obs (ofValue (.arr [])))) ∧
    (∀ itemType path (xs : List JSValue) ci, xs ≠ [] →
      completeListValue itemType path xs ci =
        .ok (.obs (combineLatest (buildListItemStreams itemType path ci xs 0))) ∧
      (buildListItemStreams itemType path ci xs 0).length = xs.length ∧
      (∀ i x, xs.get? i = some x →
        (buildListItemStreams itemType path ci xs 0).get? i =
          some (completeValueCatchingErrorStream
            (ci (path ++ [PathSeg.index i])) itemType
            (path ++ [PathSeg.index i]) (ofValue x))) ∧
      ∀ e ∈ (combineLatest (buildListItemStreams itemType path ci xs 0)).emits,
        ∃ vs, e = JSValue.arr vs ∧ vs.length = xs.length ∧
          ∀ i (hi : i < xs.length) (hv : i < vs.length)
            (hstr : i < (buildListItemStreams itemType path ci xs 0).length),
            vs.get ⟨i, hv⟩ ∈
              ((buildListItemStreams itemType path ci xs 0).get
                ⟨i, hstr⟩).emits) := by
  constructor
  · intro itemType path ci
    rfl
  · intro itemType path xs ci hne
    have hlen := buildListItemStreams_length itemType path ci xs 0
    have hlen0 : xs.length ≠ 0 := by
      cases xs with
      | nil => exact absurd rfl hne
      | cons a b => simp
    refine ⟨?_, hlen, ?_, ?_⟩
    · simp [completeListValue, hlen, hlen0]
    · intro i x hx
      simpa using buildListItemStreams_get? itemType path ci xs 0 i x hx
    · intro e he
      obtain ⟨vs, hvse, hvslen, hvsget⟩ :=
        combineLatest_emission_indexing _ e he
      refine ⟨vs, hvse, by rw [hvslen, hlen], ?_⟩
      intro i hi hv hstr
      exact hvsget i hstr hv

/-- The item completion the engine passes for list elements in the witness
scenario: completion of the `Int` item type. -/
def listItemCompletion : List PathSeg → JSValue → Except GError CompletedVal :=
  fun p v => completeValue ⟨"Query", "launched"⟩ intType p v

/-- Witness for C6 on the two-element list `[1, 2]` of `Int` items. -/
theorem completeListValue_empty_and_indexing_witness :
    ([JSValue.int 1, JSValue.int 2] ≠ ([] : List JSValue)) ∧
    (completeListValue intType [] [JSValue.int 1, JSValue.int 2]
        listItemCompletion =
      .ok (.obs (combineLatest (buildListItemStreams intType []
        listItemCompletion [JSValue.int 1, JSValue.int 2] 0))) ∧
    (buildListItemStreams intType [] listItemCompletion
        [JSValue.int 1, JSValue.int 2] 0).length =
      ([JSValue.int 1, JSValue.int 2] : List JSValue).length ∧
    (∀ i x, ([JSValue.int 1, JSValue.int 2] : List JSValue).get? i = some x →
      (buildListItemStreams intType [] listItemCompletion
          [JSValue.int 1, JSValue.int 2] 0).get? i =
        some (completeValueCatchingErrorStream
          (listItemCompletion ([] ++ [PathSeg.index i])) intType
          ([] ++ [PathSeg.index i]) (ofValue x))) ∧
    ∀ e ∈ (combineLatest (buildListItemStreams intType [] listItemCompletion
        [JSValue.int 1, JSValue.int 2] 0)).emits,
      ∃ vs, e = JSValue.arr vs ∧
        vs.length = ([JSValue.int 1, JSValue.int 2] : List JSValue).length ∧
        ∀ i (hi : i < ([JSValue.int 1, JSValue.int 2] : List JSValue).length)
          (hv : i < vs.length)
          (hstr : i < (buildListItemStreams intType [] listItemCompletion
            [JSValue.int 1, JSValue.int 2] 0).length),
          vs.get ⟨i, hv⟩ ∈
            ((buildListItemStreams intType [] listItemCompletion
              [JSValue.int 1, JSValue.int 2] 0).get ⟨i, hstr⟩).emits) :=
  ⟨by simp,
    completeListValue_empty_and_indexing.2 intType []
      [JSValue.int 1, JSValue.int 2] listItemCompletion (by simp)⟩

/-- The categories of GraphQL types distinguished by
`fieldNotFoundMessageForType` (reactive-graphql.ts lines 384-404): scalar
types, enum types, object types (with their field names in declaration
order), and any other named type (interface, union, ...). -/
inductive GraphQLTypeModel where
  | scalar : String → GraphQLTypeModel
  | enumT : String → GraphQLTypeModel
  | objectT : String → List String → GraphQLTypeModel
  | abstractT : String → GraphQLTypeModel
  deriving DecidableEq

/-- The name of a named GraphQL type. -/
def typeNameOf : GraphQLTypeModel → String
  | .scalar n => n
  | .enumT n => n
  | .objectT n _ => n
  | .abstractT n => n

/-- The JavaScript template interpolation of the nullable `type` value in
`resolve` (the segment `${type}` of the message): `null` prints as
"null", a GraphQL named type prints as its name. -/
def jsTypeToString : Option GraphQLTypeModel → String
  | none => "null"
  | some t => typeNameOf t

/-- A single apostrophe, the quote written around the field and type names
of the message. -/
def singleQuote : String := String.singleton (Char.ofNat 39)

/-- `fieldNotFoundMessageForType` (reactive-graphql.ts lines 384-404), the
branch order of the source: `null` first, then scalar, enum, object
(interpolating `Object.keys(type.getFields())`, i.e. the field names
joined by a comma), and the empty string for anything else. -/
def fieldNotFoundMessageForType : Option GraphQLTypeModel → String
  | none => "The type should not be null."
  | some (.scalar _) =>
    "The field has a scalar type, which means it supports no nesting."
  | some (.enumT _) =>
    "The field has an enum type, which means it supports no nesting."
  | some (.objectT _ fieldNames) =>
    "The only fields found in this Object are: " ++
      String.intercalate "," fieldNames ++ "."
  | some (.abstractT _) => ""

/-- The message `resolve` builds when `getField` returns `null`
(reactive-graphql.ts lines 124-132). -/
def fieldNotFoundMessage (fieldName : String)
    (t : Option GraphQLTypeModel) : String :=
  "field " ++ singleQuote ++ fieldName ++ singleQuote ++
    " was not found on type " ++ singleQuote ++ jsTypeToString t ++
    singleQuote ++ ". " ++ fieldNotFoundMessageForType t

/-- `throwObservable` (reactive-graphql.ts lines 304-306): the error
emitted on the stream carries the message prefixed with
"reactive-graphql: ". -/
def throwObservableMessage (error : String) : String :=
  "reactive-graphql: " ++ error

/-- The message of the error emitted for an unresolvable field. -/
def emittedFieldNotFoundMessage (fieldName : String)
    (t : Option GraphQLTypeModel) : String :=
  throwObservableMessage (fieldNotFoundMessage fieldName t)

/-- C9 counterexample: at the input of the repository's own test (field
`youDontKnowMe`, object type `Query` with fields plain, item, nested,
throwingResolver), the emitted error message is not the claimed
`field ... was not found ...` text: it carries the `reactive-graphql: `
prefix added by `throwObservable`. -/
theorem emitted_field_not_found_message_is_prefixed :
    emittedFieldNotFoundMessage "youDontKnowMe"
        (some (.objectT "Query"
          ["plain", "item", "nested", "throwingResolver"])) ≠
      "field " ++ singleQuote ++ "youDontKnowMe" ++ singleQuote ++
        " was not found on type " ++ singleQuote ++ "Query" ++ singleQuote ++
        ". The only fields found in this Object are: " ++
        "plain,item,nested,throwingResolver." := by
  decide

/-- C9 (amended): the emitted message is exactly the claimed
`field '<name>' was not found on type '<Type>'. <hint>` text prefixed
with `reactive-graphql: `, and the hint is exactly the category-specific
text of the claim: the scalar and enum sentences, the object sentence
listing the comma-separated field names, the null-type sentence, and the
empty string for any other type. -/
theorem emittedFieldNotFoundMessage_format :
    (∀ fieldName t, emittedFieldNotFoundMessage fieldName t =
      "reactive-graphql: " ++
        ("field " ++ singleQuote ++ fieldName ++ singleQuote ++
          " was not found on type " ++ singleQuote ++ jsTypeToString t ++
          singleQuote ++ ". " ++ fieldNotFoundMessageForType t)) ∧
    (∀ n, fieldNotFoundMessageForType (some (.scalar n)) =
      "The field has a scalar type, which means it supports no nesting.") ∧
    (∀ n, fieldNotFoundMessageForType (some (.enumT n)) =
      "The field has an enum type, which means it supports no nesting.") ∧
    (∀ n fieldNames, fieldNotFoundMessageForType (some (.objectT n fieldNames)) =
      "The only fields found in this Object are: " ++
        String.intercalate "," fieldNames ++ ".") ∧
    fieldNotFoundMessageForType none = "The type should not be null." ∧
    (∀ n, fieldNotFoundMessageForType (some (.abstractT n)) = "") :=
  ⟨fun _ _ => rfl, fun _ => rfl, fun _ => rfl, fun _ _ => rfl, rfl,
    fun _ => rfl⟩

end ReactiveGraphQL
